import Mathlib

/-!
Verification of the concurrency-coordination toolkit of the
`rust-course` repository (`src/10_concurrency/examples/advanced.rs`):
thread pool and workers, actor, shared cache, atomic counter and the
scoped-thread parallel reduction `parallel_sum`.

Pure functions are embedded as Lean functions.  The thread pool's
runtime behaviour (workers racing for jobs on the shared channel,
teardown in `Drop`) is embedded as a small-step transition relation
over an explicit pool state, with a nondeterministic scheduler: any
interleaving of worker actions is a trace of the relation.
-/

namespace RustCourse

/-! ### ParallelReduce: `parallel_sum` and its helpers -/

/-- Embeds Rust `data.iter().sum::<usize>()`: the left-to-right fold of
`+` over the slice, starting from `0`. -/
def iterSum (data : List Nat) : Nat := data.foldl (· + ·) 0

/-- Embeds `parallel_sum` (`advanced.rs:178-193`): below the hardcoded
cutoff `100` the slice is summed sequentially; otherwise it is split at
`mid = len / 2`, the left half is summed in a spawned scoped thread, the
right half inline, and the two partial sums are added. -/
def parallel_sum (data : List Nat) : Nat :=
  if data.length < 100 then
    iterSum data
  else
    let mid := data.length / 2
    let left := data.take mid
    let right := data.drop mid
    iterSum left + iterSum right

/-- Whether `parallel_sum` spawns a scoped thread on `data`: exactly the
negation of the `data.len() < 100` early-return test in the source. -/
def spawnsThread (data : List Nat) : Bool :=
  if data.length < 100 then false else true

/-! ### AtomicCounter -/

/-- Embeds `Counter` (`advanced.rs:156-174`): a single `AtomicUsize`
field. -/
structure Counter where
  count : Nat
deriving DecidableEq

/-- Embeds `Counter::new`: the count starts at `0`. -/
def Counter.new : Counter := ⟨0⟩

/-- Embeds `Counter::increment`: `fetch_add(1)` returns the value held
before the addition, together with the updated counter state. -/
def Counter.increment (c : Counter) : Nat × Counter :=
  (c.count, ⟨c.count + 1⟩)

/-- Embeds `Counter::get`: a load of the current value. -/
def Counter.get (c : Counter) : Nat := c.count

/-- Runs `increment` `n` times from state `c`, collecting the returned
(pre-increment) values in order, and the final state. -/
def Counter.incRun : Nat → Counter → List Nat × Counter
  | 0, c => ([], c)
  | n + 1, c =>
    let r := c.increment
    let rest := Counter.incRun n r.2
    (r.1 :: rest.1, rest.2)

/-! ### ConcurrentCache -/

/-- Embeds `Cache<K, V>` (`advanced.rs:128-150`): the `HashMap` behind
the `RwLock` is embedded by its abstraction, a finite partial map from
keys to values. -/
structure Cache (K V : Type) where
  data : K → Option V

/-- Embeds `Cache::new`: the empty map. -/
def Cache.new {K V : Type} : Cache K V := ⟨fun _ => none⟩

/-- Embeds `Cache::get`: `map.get(key).cloned()` — a copy of the stored
value when the key is present, `none` otherwise. -/
def Cache.get {K V : Type} (c : Cache K V) (key : K) : Option V :=
  c.data key

/-- Embeds `Cache::insert`: `map.insert(key, value)` inserts the pair,
overwriting any previous binding of `key`. -/
def Cache.insert {K V : Type} [DecidableEq K] (c : Cache K V) (key : K) (v : V) :
    Cache K V :=
  ⟨fun k => if k = key then some v else c.data k⟩

/-! ### Actor -/

/-- Embeds `Message<T>` (`advanced.rs:16-19`). -/
inductive Message (T : Type) where
  | Work (item : T)
  | Stop
deriving DecidableEq

/-- Embeds the actor thread's loop (`advanced.rs:28-36`): messages are
received from the mailbox in FIFO order; `Work item` invokes the
processor on `item`, `Stop` breaks the loop, and the loop also ends when
the mailbox is exhausted with its channel closed.  The result is the
list of items the processor was invoked on, in invocation order. -/
def actorRun {T : Type} : List (Message T) → List T
  | [] => []
  | Message.Work t :: rest => t :: actorRun rest
  | Message.Stop :: _ => []

/-- The mailbox-and-liveness state of an `Actor<T>` as seen by `send`:
the queued messages, and whether the consumer thread (which owns the
receiving end of the channel) is still running. -/
structure ActorState (T : Type) where
  mailbox : List (Message T)
  alive : Bool

/-- Embeds `Actor::send` (`advanced.rs:41-43`), which is
`self.sender.send(Message::Work(item))`: when the receiver is still
alive the message is appended to the mailbox and `Ok(())` is returned;
when the consumer thread has terminated the send fails and the message
is handed back in the error, leaving the mailbox unchanged. -/
def Actor.send {T : Type} (s : ActorState T) (item : T) :
    Except Unit Unit × ActorState T :=
  if s.alive then
    (Except.ok (), { s with mailbox := s.mailbox ++ [Message.Work item] })
  else
    (Except.error (), s)

/-! ### ThreadPool / Worker: state and transition relation

Jobs are identified by natural numbers; a job's behaviour when run is
given by a function `panics : Nat → Bool` fixed for a whole trace. -/

/-- The status of one worker thread. -/
inductive WStatus where
  | idle
  | busy (job : Nat)
  | done
  | crashed
deriving DecidableEq

/-- Whether a worker thread is still running.  Each worker's closure
owns a clone of the `Arc<Mutex<Receiver>>`; the clone is dropped when
the thread terminates, whether by `break` (`done`) or by unwinding
(`crashed`). -/
def WStatus.isLive : WStatus → Bool
  | WStatus.idle => true
  | WStatus.busy _ => true
  | _ => false

/-- The jobs a worker status holds, as a multiset (one for `busy`,
none otherwise). -/
def WStatus.toM : WStatus → Multiset Nat
  | WStatus.busy j => {j}
  | _ => 0

/-- The multiset of jobs currently held by workers. -/
def busyM : List WStatus → Multiset Nat
  | [] => 0
  | w :: ws => w.toM + busyM ws

/-- The observable state of a `ThreadPool` (`advanced.rs:53-124`)
together with its execution history: the channel's pending job queue
(FIFO), the status of each worker, the jobs that have been run so far
in completion order, and whether the sending half of the channel has
been dropped. -/
structure PoolState where
  queue : List Nat
  workers : List WStatus
  executed : List Nat
  senderClosed : Bool
deriving DecidableEq

/-- Embeds `ThreadPool::new(size)` (`advanced.rs:61-71`): a fresh
channel and `size` workers, each blocked on the shared receiver. There
is no check on `size`; construction always succeeds. -/
def ThreadPool.new (size : Nat) : PoolState :=
  ⟨[], List.replicate size WStatus.idle, [], false⟩

/-- Embeds `ThreadPool::execute` (`advanced.rs:73-79`), which is
`self.sender.send(job).unwrap()`.  The send succeeds — appending the job
to the channel's pending queue, never waiting for it to run — exactly
while some receiver handle survives, i.e. while at least one worker
thread is still running.  Otherwise (a zero-worker pool, whose only
receiver was dropped when `new` returned, or a pool whose workers have
all terminated) the channel is closed, `send` returns `Err`, and the
`unwrap` panics in the caller: the job is never enqueued. -/
def ThreadPool.execute (s : PoolState) (j : Nat) : Except Unit PoolState :=
  if s.workers.any WStatus.isLive then
    Except.ok { s with queue := s.queue ++ [j] }
  else
    Except.error ()

/-- Submits a list of jobs in order via `ThreadPool.execute`; fails as
soon as any single submission panics. -/
def ThreadPool.submitAll (s : PoolState) (jobs : List Nat) :
    Except Unit PoolState :=
  jobs.foldlM ThreadPool.execute s

/-- Embeds the first half of `Drop for ThreadPool` (`advanced.rs:82-94`):
dropping the sender closes the channel.  The joins that follow return
precisely in the states satisfying `allJoined`. -/
def ThreadPool.beginDrop (s : PoolState) : PoolState :=
  { s with senderClosed := true }

/-- One scheduler step of the pool (`Worker::new`'s loop,
`advanced.rs:101-124`), for a fixed job behaviour `panics`:

* `take`: an idle worker acquires the receiver lock and `recv` returns
  the job at the head of the queue;
* `exec`: a worker runs the job it holds; the run is recorded, and a
  panicking job unwinds the worker thread (the loop has no catch), while
  a normal job returns the worker to its receive loop;
* `exit`: an idle worker's `recv` returns `Err` — possible exactly when
  the channel is closed and drained — and the worker breaks its loop. -/
inductive PoolStep (panics : Nat → Bool) : PoolState → PoolState → Prop
  | take (i j : Nat) (rest : List Nat) (ws : List WStatus) (ex : List Nat)
      (c : Bool) (h : ws[i]? = some WStatus.idle) :
      PoolStep panics ⟨j :: rest, ws, ex, c⟩
        ⟨rest, ws.set i (WStatus.busy j), ex, c⟩
  | exec (i j : Nat) (q : List Nat) (ws : List WStatus) (ex : List Nat)
      (c : Bool) (h : ws[i]? = some (WStatus.busy j)) :
      PoolStep panics ⟨q, ws, ex, c⟩
        ⟨q, ws.set i (if panics j then WStatus.crashed else WStatus.idle),
          ex ++ [j], c⟩
  | exit (i : Nat) (ws : List WStatus) (ex : List Nat)
      (h : ws[i]? = some WStatus.idle) :
      PoolStep panics ⟨[], ws, ex, true⟩ ⟨[], ws.set i WStatus.done, ex, true⟩

/-- Any interleaving of worker steps. -/
def PoolReach (panics : Nat → Bool) : PoolState → PoolState → Prop :=
  Relation.ReflTransGen (PoolStep panics)

/-- The states in which the `for worker in &mut self.workers { ... join }`
loop of `Drop` has returned: every worker thread has terminated, either
by breaking out of its loop (`done`) or by unwinding (`crashed`) — a
join on either returns. -/
def allJoined (s : PoolState) : Bool :=
  s.workers.all fun w => decide (w = WStatus.done ∨ w = WStatus.crashed)

/-- The inductive invariant of pool traces starting from `jobs`:
the submitted jobs are exactly the pending, held and executed ones
(counted with multiplicity); no worker has crashed; and once some worker
has exited, the queue has been drained for good. -/
def PoolInv (jobs : List Nat) (s : PoolState) : Prop :=
  (↑jobs : Multiset Nat) = ↑s.queue + busyM s.workers + ↑s.executed
    ∧ (∀ w ∈ s.workers, w ≠ WStatus.crashed)
    ∧ (WStatus.done ∈ s.workers → s.queue = [])

/-- A job behaviour under which no job panics. -/
def pfNone : Nat → Bool := fun _ => false

/-- A job behaviour under which exactly job `0` panics. -/
def pfFirst : Nat → Bool := fun j => j == 0

/-! ### Helper lemmas -/

/-- `iterSum` computes the sum of the list. -/
theorem iterSum_eq_sum (l : List Nat) : iterSum l = l.sum :=
  List.sum_eq_foldl.symm

/-- Running `incRun` from any counter state returns the `n` consecutive
values starting at the current count, and advances the count by `n`. -/
theorem Counter.incRun_general :
    ∀ (n : Nat) (c : Counter),
      Counter.incRun n c = ((List.range n).map (fun k => c.count + k), ⟨c.count + n⟩) := by
  intro n
  induction n with
  | zero => intro c; simp [Counter.incRun]
  | succ n ih =>
    intro c
    have hmap : (List.range (n + 1)).map (fun k => c.count + k)
        = c.count :: (List.range n).map (fun k => c.count + 1 + k) := by
      rw [List.range_succ_eq_map, List.map_cons, List.map_map]
      simp only [Nat.add_zero, List.cons.injEq, true_and]
      refine List.map_congr_left fun k _ => ?_
      simp only [Function.comp_apply]
      omega
    simp only [Counter.incRun, Counter.increment, ih ⟨c.count + 1⟩, hmap]
    have hc : c.count + 1 + n = c.count + (n + 1) := by omega
    rw [hc]

/-- Replacing the worker at a valid index exchanges its held-job
contribution: the multiset of held jobs plus the old status's jobs
equals the original multiset plus the new status's jobs. -/
theorem busyM_set :
    ∀ (ws : List WStatus) (i : Nat) (w v : WStatus), ws[i]? = some w →
      busyM (ws.set i v) + w.toM = busyM ws + v.toM := by
  intro ws
  induction ws with
  | nil => intro i w v h; simp at h
  | cons a t ih =>
    intro i w v h
    cases i with
    | zero =>
      simp only [List.getElem?_cons_zero, Option.some.injEq] at h
      subst h
      simp only [List.set_cons_zero, busyM]
      abel
    | succ i =>
      simp only [List.getElem?_cons_succ] at h
      have hrec := ih i w v h
      simp only [List.set_cons_succ, busyM]
      calc a.toM + busyM (t.set i v) + w.toM
          = a.toM + (busyM (t.set i v) + w.toM) := by abel
        _ = a.toM + (busyM t + v.toM) := by rw [hrec]
        _ = a.toM + busyM t + v.toM := by abel

/-- A worker holding job `j` contributes `j` to the held-jobs multiset. -/
theorem mem_busyM :
    ∀ (ws : List WStatus) (i j : Nat), ws[i]? = some (WStatus.busy j) →
      j ∈ busyM ws := by
  intro ws
  induction ws with
  | nil => intro i j h; simp at h
  | cons a t ih =>
    intro i j h
    cases i with
    | zero =>
      simp only [List.getElem?_cons_zero, Option.some.injEq] at h
      subst h
      simp [busyM, WStatus.toM]
    | succ i =>
      simp only [List.getElem?_cons_succ] at h
      have := ih i j h
      simp only [busyM, Multiset.mem_add]
      exact Or.inr this

/-- Freshly spawned workers hold no jobs. -/
theorem busyM_replicate_idle : ∀ n : Nat, busyM (List.replicate n WStatus.idle) = 0 := by
  intro n
  induction n with
  | zero => rfl
  | succ n ih => simp [List.replicate_succ, busyM, WStatus.toM, ih]

/-- If no worker holds a job, the held-jobs multiset is empty. -/
theorem busyM_eq_zero :
    ∀ ws : List WStatus, (∀ w ∈ ws, w.toM = 0) → busyM ws = 0 := by
  intro ws
  induction ws with
  | nil => intro _; rfl
  | cons a t ih =>
    intro h
    simp only [busyM, h a (by simp), ih fun w hw => h w (by simp [hw]), add_zero]

/-- When a batch submission succeeds, it has appended the jobs, in
order, to the pending queue, and changed nothing else. -/
theorem submitAll_ok :
    ∀ (jobs : List Nat) (s s' : PoolState),
      ThreadPool.submitAll s jobs = Except.ok s' →
      s' = { s with queue := s.queue ++ jobs } := by
  intro jobs
  induction jobs with
  | nil =>
    intro s s' h
    have h2 : (Except.ok s : Except Unit PoolState) = Except.ok s' := h
    simp only [Except.ok.injEq] at h2
    subst h2
    simp
  | cons j js ih =>
    intro s s' h
    simp only [ThreadPool.submitAll, List.foldlM_cons] at h
    unfold ThreadPool.execute at h
    split at h
    · have h2 : ThreadPool.submitAll { s with queue := s.queue ++ [j] } js
          = Except.ok s' := h
      rw [ih _ _ h2]
      simp
    · have h2 : (Except.error () : Except Unit PoolState) = Except.ok s' := h
      exact Except.noConfusion h2

/-- A worker step never changes the number of workers. -/
theorem poolStep_workers_length (p : Nat → Bool) {s s' : PoolState}
    (h : PoolStep p s s') : s'.workers.length = s.workers.length := by
  cases h <;> simp

/-- Worker steps preserve the pool invariant, provided no submitted job
panics. -/
theorem poolInv_step (jobs : List Nat) (p : Nat → Bool)
    (hnp : ∀ j ∈ jobs, p j = false) {s s' : PoolState}
    (hstep : PoolStep p s s') (hinv : PoolInv jobs s) : PoolInv jobs s' := by
  obtain ⟨hm, hnc, hde⟩ := hinv
  cases hstep with
  | take i j rest ws ex c h =>
    refine ⟨?_, ?_, ?_⟩
    · have hset := busyM_set ws i WStatus.idle (WStatus.busy j) h
      simp only [WStatus.toM, add_zero] at hset
      show (↑jobs : Multiset Nat) = ↑rest + busyM (ws.set i (WStatus.busy j)) + ↑ex
      rw [hm, hset]
      show (↑(j :: rest) : Multiset Nat) + busyM ws + ↑ex
          = ↑rest + (busyM ws + {j}) + ↑ex
      rw [← Multiset.cons_coe, ← Multiset.singleton_add]
      abel
    · intro w hw
      rcases List.mem_or_eq_of_mem_set hw with hmem | heq
      · exact hnc w hmem
      · subst heq; simp
    · intro hdone
      rcases List.mem_or_eq_of_mem_set hdone with hmem | heq
      · exact absurd (hde hmem) (by simp)
      · simp at heq
  | exec i j q ws ex c h =>
    have hj : j ∈ jobs := by
      have hmem : j ∈ busyM ws := mem_busyM ws i j h
      have hmem2 : j ∈ (↑jobs : Multiset Nat) := by
        rw [hm]
        exact Multiset.mem_add.mpr (Or.inl (Multiset.mem_add.mpr (Or.inr hmem)))
      simpa using hmem2
    have hpj : p j = false := hnp j hj
    refine ⟨?_, ?_, ?_⟩
    · have hset := busyM_set ws i (WStatus.busy j) WStatus.idle h
      simp only [WStatus.toM, add_zero] at hset
      show (↑jobs : Multiset Nat)
          = ↑q + busyM (ws.set i (if p j then WStatus.crashed else WStatus.idle))
            + ↑(ex ++ [j])
      rw [hpj]
      simp only [Bool.false_eq_true, if_false]
      rw [hm, ← hset, ← Multiset.coe_add, ← Multiset.coe_singleton]
      abel
    · intro w hw
      rcases List.mem_or_eq_of_mem_set hw with hmem | heq
      · exact hnc w hmem
      · subst heq
        rw [hpj]
        simp
    · intro hdone
      rcases List.mem_or_eq_of_mem_set hdone with hmem | heq
      · exact hde hmem
      · rw [hpj] at heq
        simp at heq
  | exit i ws ex h =>
    refine ⟨?_, ?_, ?_⟩
    · have hset := busyM_set ws i WStatus.idle WStatus.done h
      simp only [WStatus.toM, add_zero] at hset
      show (↑jobs : Multiset Nat) = ↑([] : List Nat) + busyM (ws.set i WStatus.done) + ↑ex
      rw [hm, hset]
    · intro w hw
      rcases List.mem_or_eq_of_mem_set hw with hmem | heq
      · exact hnc w hmem
      · subst heq; simp
    · intro _; rfl

/-- The pool invariant holds along every trace, provided no submitted
job panics. -/
theorem poolInv_reach (jobs : List Nat) (p : Nat → Bool)
    (hnp : ∀ j ∈ jobs, p j = false) {s s' : PoolState}
    (hreach : PoolReach p s s') (hinv : PoolInv jobs s) : PoolInv jobs s' := by
  have h2 : Relation.ReflTransGen (PoolStep p) s s' := hreach
  clear hreach
  induction h2 with
  | refl => exact hinv
  | tail _ hstep ih => exact poolInv_step jobs p hnp hstep ih

/-- Reachability never changes the number of workers. -/
theorem poolReach_workers_length (p : Nat → Bool) {s s' : PoolState}
    (hreach : PoolReach p s s') : s'.workers.length = s.workers.length := by
  have h2 : Relation.ReflTransGen (PoolStep p) s s' := hreach
  clear hreach
  induction h2 with
  | refl => rfl
  | tail _ hstep ih => rw [poolStep_workers_length _ hstep, ih]

/-- `allJoined` says exactly that every worker has terminated. -/
theorem allJoined_iff (s : PoolState) :
    allJoined s = true ↔ ∀ w ∈ s.workers, w = WStatus.done ∨ w = WStatus.crashed := by
  simp [allJoined, List.all_eq_true]

/-! ### Claim theorems -/

/-- C3: for every non-empty input, `parallel_sum` returns exactly the
left-to-right sequential fold of the input with `+` (starting from `0`),
regardless of where the split falls. -/
theorem parallel_sum_eq_sequential_fold (data : List Nat) (h : data ≠ []) :
    parallel_sum data = data.foldl (· + ·) 0 := by
  by_cases hl : data.length < 100
  · simp only [parallel_sum, if_pos hl]; rfl
  · simp only [parallel_sum, if_neg hl]
    show iterSum (data.take (data.length / 2)) + iterSum (data.drop (data.length / 2))
        = data.foldl (· + ·) 0
    rw [iterSum_eq_sum, iterSum_eq_sum, List.sum_take_add_sum_drop]
    exact List.sum_eq_foldl

/-- Witness for C3 at the singleton input `[5]`. -/
theorem parallel_sum_eq_sequential_fold_witness :
    [5] ≠ ([] : List Nat) ∧ parallel_sum [5] = [5].foldl (· + ·) 0 :=
  ⟨by decide, parallel_sum_eq_sequential_fold [5] (by decide)⟩

/-- C4 (amended): `parallel_sum` uses the fixed cutoff `100` rather than
a threshold parameter; for inputs of length `< 100` it sums sequentially
with no thread spawned, and for inputs of length `≥ 100` it splits once
at the midpoint `len / 2`, sums the left half in a spawned scoped thread
and the right half inline, and adds the two partial sums (it does not
recurse). -/
theorem parallel_sum_fixed_threshold (data : List Nat) :
    (data.length < 100 → parallel_sum data = iterSum data ∧ spawnsThread data = false)
      ∧ (100 ≤ data.length →
          parallel_sum data
              = iterSum (data.take (data.length / 2))
                + iterSum (data.drop (data.length / 2))
            ∧ spawnsThread data = true) := by
  constructor
  · intro h; simp [parallel_sum, spawnsThread, h]
  · intro h
    have h2 : ¬ data.length < 100 := by omega
    simp [parallel_sum, spawnsThread, h2]

/-- Witness for C4's amended statement: a short input is summed
sequentially, and an input of length exactly `100` is split. -/
theorem parallel_sum_fixed_threshold_witness :
    (parallel_sum [1, 2, 3] = iterSum [1, 2, 3] ∧ spawnsThread [1, 2, 3] = false)
      ∧ (parallel_sum (List.range 100)
            = iterSum ((List.range 100).take 50) + iterSum ((List.range 100).drop 50)
          ∧ spawnsThread (List.range 100) = true) :=
  ⟨(parallel_sum_fixed_threshold [1, 2, 3]).1 (by decide),
   (parallel_sum_fixed_threshold (List.range 100)).2 (by decide)⟩

/-- Counterexample for C4 as stated: an input whose length equals the
code's cutoff (`100`) is split and reduced with a spawned thread, not
reduced sequentially, contradicting "for every input with
`len(data) <= threshold` it reduces sequentially with no split". -/
theorem parallel_sum_splits_at_threshold :
    spawnsThread (List.range 100) = true ∧ (List.range 100).length ≤ 100 :=
  ⟨by decide, by decide⟩

/-- C10: on the empty input `parallel_sum` is defined and returns `0`,
via the below-cutoff sequential branch (no thread spawned). -/
theorem parallel_sum_empty_zero : parallel_sum [] = 0 ∧ spawnsThread [] = false :=
  ⟨rfl, rfl⟩

/-- C6: `increment` returns the pre-increment value and adds `1`
(fetch-and-add), and `get` returns the current count; consequently `n`
increments on a fresh counter return `0, 1, ..., n-1` in order and leave
the counter at `n`. -/
theorem counter_increment_spec (n : Nat) (c : Counter) :
    c.increment = (c.get, ⟨c.count + 1⟩)
      ∧ (Counter.incRun n Counter.new).1 = List.range n
      ∧ ((Counter.incRun n Counter.new).2).get = n := by
  refine ⟨rfl, ?_, ?_⟩
  · rw [Counter.incRun_general]
    simp [Counter.new]
  · rw [Counter.incRun_general]
    simp [Counter.new, Counter.get]

/-- C7: `get` after `insert k v` returns `some v` at `k`; `insert`
leaves every other key's lookup unchanged (insert-or-overwrite); and a
lookup in the fresh cache is absent. -/
theorem cache_get_insert_spec {K V : Type} [DecidableEq K]
    (c : Cache K V) (k k' : K) (v : V) :
    Cache.get (Cache.insert c k v) k = some v
      ∧ (k' ≠ k → Cache.get (Cache.insert c k v) k' = Cache.get c k')
      ∧ Cache.get (Cache.new : Cache K V) k = none := by
  refine ⟨?_, ?_, rfl⟩
  · simp [Cache.get, Cache.insert]
  · intro h; simp [Cache.get, Cache.insert, h]

/-- Witness for C7 over `Nat` keys and values. -/
theorem cache_get_insert_spec_witness :
    Cache.get (Cache.insert (Cache.new : Cache Nat Nat) 0 7) 0 = some 7
      ∧ Cache.get (Cache.insert (Cache.new : Cache Nat Nat) 0 7) 1
          = Cache.get (Cache.new : Cache Nat Nat) 1 :=
  ⟨(cache_get_insert_spec (Cache.new : Cache Nat Nat) 0 1 7).1,
   (cache_get_insert_spec (Cache.new : Cache Nat Nat) 0 1 7).2.1 (by decide)⟩

/-- C8: for a mailbox holding the messages `m1, ..., mn` sent by a
single producer followed by the `Stop` enqueued by `stop()`, the actor
loop invokes the processor on exactly `m1, ..., mn`, in that order, each
exactly once, before the loop ends (after which the thread is joined and
`stop()` returns). -/
theorem actor_in_order {T : Type} (ms : List T) :
    actorRun (ms.map Message.Work ++ [Message.Stop]) = ms := by
  induction ms with
  | nil => rfl
  | cons m ms ih => simpa [actorRun] using ih

/-- C9: `send` succeeds exactly when the actor thread is still running;
a send to a terminated actor fails with the closed-channel error and
leaves the state unchanged; a successful send appends the work message
to the mailbox (without waiting for it to be processed). -/
theorem actor_send_spec {T : Type} (s : ActorState T) (item : T) :
    ((Actor.send s item).1 = Except.ok () ↔ s.alive = true)
      ∧ (s.alive = false → Actor.send s item = (Except.error (), s))
      ∧ (s.alive = true →
          (Actor.send s item).2.mailbox = s.mailbox ++ [Message.Work item]) := by
  cases h : s.alive <;> simp [Actor.send, h]

/-- Witness for C9: one send to a terminated actor, one to a live one. -/
theorem actor_send_spec_witness :
    Actor.send (⟨[], false⟩ : ActorState Nat) 3
        = (Except.error (), (⟨[], false⟩ : ActorState Nat))
      ∧ (Actor.send (⟨[], true⟩ : ActorState Nat) 3).2.mailbox = [Message.Work 3] :=
  ⟨(actor_send_spec (⟨[], false⟩ : ActorState Nat) 3).2.1 rfl,
   (actor_send_spec (⟨[], true⟩ : ActorState Nat) 3).2.2 rfl⟩

/-- C2 (amended): `ThreadPool::new(size)` succeeds for every `size`,
including `0`, creating exactly `size` workers; the worker count is
never changed by submitting jobs, by closing the channel, or by any
worker step. -/
theorem pool_worker_count_fixed (size : Nat) :
    (ThreadPool.new size).workers.length = size
      ∧ (∀ (s s' : PoolState) (j : Nat), ThreadPool.execute s j = Except.ok s' →
          s'.workers = s.workers)
      ∧ (∀ s : PoolState, (ThreadPool.beginDrop s).workers = s.workers)
      ∧ (∀ (p : Nat → Bool) (s s' : PoolState), PoolStep p s s' →
          s'.workers.length = s.workers.length) := by
  refine ⟨by simp [ThreadPool.new], ?_, fun s => rfl, ?_⟩
  · intro s s' j h
    unfold ThreadPool.execute at h
    split at h
    · simp only [Except.ok.injEq] at h
      rw [← h]
    · exact Except.noConfusion h
  · intro p s s' h
    cases h <;> simp

/-- Witness for C2's amended statement: a two-worker pool, one concrete
successful submission, and one concrete worker step, each preserving the
workers. -/
theorem pool_worker_count_fixed_witness :
    (ThreadPool.new 2).workers.length = 2
      ∧ (⟨[5], [WStatus.idle], [], false⟩ : PoolState).workers
          = (⟨[], [WStatus.idle], [], false⟩ : PoolState).workers
      ∧ (⟨[], [WStatus.busy 5], [], false⟩ : PoolState).workers.length
          = (⟨[5], [WStatus.idle], [], false⟩ : PoolState).workers.length :=
  ⟨(pool_worker_count_fixed 2).1,
   (pool_worker_count_fixed 2).2.1 ⟨[], [WStatus.idle], [], false⟩
     ⟨[5], [WStatus.idle], [], false⟩ 5 rfl,
   (pool_worker_count_fixed 2).2.2.2 pfNone ⟨[5], [WStatus.idle], [], false⟩
     ⟨[], [WStatus.busy 5], [], false⟩
     (PoolStep.take 0 5 [] [WStatus.idle] [] false rfl)⟩

/-- Counterexample for C2 as stated: `ThreadPool::new 0` does not fail
or panic — the constructor has no size check and returns a pool with an
empty worker vector. -/
theorem pool_new_zero_no_panic :
    ThreadPool.new 0 = (⟨[], [], [], false⟩ : PoolState)
      ∧ (ThreadPool.new 0).workers.length = 0 :=
  ⟨rfl, rfl⟩

/-- C1 (amended): for every batch of jobs successfully submitted via
`ThreadPool::execute` before shutdown, provided every submitted job runs
to completion (no panics), along every schedule, whenever `Drop`'s join
loop has returned (every worker thread has terminated and been joined),
every submitted job has been executed exactly once — the multiset of
executed jobs equals the multiset of submitted jobs — and the queue has
been drained.  No pool-size premise is needed: a zero-worker pool's
channel is already closed, so no job can be successfully submitted to
it in the first place. -/
theorem pool_teardown_executes_all (size : Nat) (jobs : List Nat)
    (p : Nat → Bool) (s0 s : PoolState)
    (hnp : ∀ j ∈ jobs, p j = false)
    (hsub : ThreadPool.submitAll (ThreadPool.new size) jobs = Except.ok s0)
    (hreach : PoolReach p (ThreadPool.beginDrop s0) s)
    (hjoin : allJoined s = true) :
    s.executed.Perm jobs ∧ s.queue = [] := by
  have hs0 : s0 = ⟨jobs, List.replicate size WStatus.idle, [], false⟩ := by
    have h2 := submitAll_ok jobs (ThreadPool.new size) s0 hsub
    simpa [ThreadPool.new] using h2
  have hinit : ThreadPool.beginDrop s0
      = ⟨jobs, List.replicate size WStatus.idle, [], true⟩ := by
    rw [hs0]
    rfl
  rw [hinit] at hreach
  have hinv0 : PoolInv jobs ⟨jobs, List.replicate size WStatus.idle, [], true⟩ := by
    refine ⟨?_, ?_, ?_⟩
    · simp [busyM_replicate_idle]
    · intro w hw
      rw [List.eq_of_mem_replicate hw]
      simp
    · intro hdone
      have := List.eq_of_mem_replicate hdone
      simp at this
  have hinv := poolInv_reach jobs p hnp hreach hinv0
  obtain ⟨hm, hnc, hde⟩ := hinv
  have halldone : ∀ w ∈ s.workers, w = WStatus.done := by
    intro w hw
    rcases (allJoined_iff s).mp hjoin w hw with h1 | h1
    · exact h1
    · exact absurd h1 (hnc w hw)
  have hbz : busyM s.workers = 0 :=
    busyM_eq_zero s.workers fun w hw => by rw [halldone w hw]; rfl
  by_cases hj : jobs = []
  · subst hj
    rw [hbz] at hm
    have hcard := congrArg Multiset.card hm
    simp [Multiset.card_add] at hcard
    have hq : s.queue = [] := List.length_eq_zero.mp (by omega)
    have hex : s.executed = [] := List.length_eq_zero.mp (by omega)
    rw [hex, hq]
    exact ⟨List.Perm.refl [], rfl⟩
  · have hsize : 1 ≤ size := by
      by_contra hcon
      have hz : size = 0 := by omega
      subst hz
      rcases jobs with _ | ⟨j, js⟩
      · exact hj rfl
      · have h2 : (Except.error () : Except Unit PoolState) = Except.ok s0 := hsub
        exact Except.noConfusion h2
    have hlen : s.workers.length = size := by
      have := poolReach_workers_length p hreach
      simpa using this
    have hne : s.workers ≠ [] := by
      intro hcon
      rw [hcon] at hlen
      simp at hlen
      omega
    have hdone_mem : WStatus.done ∈ s.workers := by
      obtain ⟨w, hw⟩ := List.exists_mem_of_ne_nil s.workers hne
      exact halldone w hw ▸ hw
    have hq : s.queue = [] := hde hdone_mem
    refine ⟨?_, hq⟩
    rw [hq, hbz] at hm
    simp only [Multiset.coe_nil, zero_add, add_zero, Multiset.coe_eq_coe] at hm
    exact hm.symm

/-- Witness for C1's amended statement: one worker, one successfully
submitted job, run along the schedule take-execute-exit. -/
theorem pool_teardown_executes_all_witness :
    (⟨[], [WStatus.done], [0], true⟩ : PoolState).executed.Perm [0]
      ∧ (⟨[], [WStatus.done], [0], true⟩ : PoolState).queue = [] := by
  refine pool_teardown_executes_all 1 [0] pfNone ⟨[0], [WStatus.idle], [], false⟩
    ⟨[], [WStatus.done], [0], true⟩ (fun j hj => rfl) rfl ?_ (by decide)
  have h1 : PoolStep pfNone ⟨[0], [WStatus.idle], [], true⟩
      ⟨[], [WStatus.busy 0], [], true⟩ :=
    PoolStep.take 0 0 [] [WStatus.idle] [] true rfl
  have h2 : PoolStep pfNone ⟨[], [WStatus.busy 0], [], true⟩
      ⟨[], [WStatus.idle], [0], true⟩ :=
    PoolStep.exec 0 0 [] [WStatus.busy 0] [] true rfl
  have h3 : PoolStep pfNone ⟨[], [WStatus.idle], [0], true⟩
      ⟨[], [WStatus.done], [0], true⟩ :=
    PoolStep.exit 0 [WStatus.idle] [0] rfl
  exact ((Relation.ReflTransGen.refl.tail h1).tail h2).tail h3

/-- Counterexample for C1 as stated: jobs `0` and `1` are both
successfully submitted (the single worker is alive throughout the
sends), job `0` panics when run, and the pool reaches a state where
every worker thread has terminated and been joined — teardown returns —
yet the executed jobs are not the submitted ones: job `1` was never
executed. -/
theorem pool_teardown_after_panic_incomplete :
    ThreadPool.submitAll (ThreadPool.new 1) [0, 1]
        = Except.ok ⟨[0, 1], [WStatus.idle], [], false⟩
      ∧ PoolReach pfFirst
          (ThreadPool.beginDrop ⟨[0, 1], [WStatus.idle], [], false⟩)
          ⟨[1], [WStatus.crashed], [0], true⟩
      ∧ allJoined ⟨[1], [WStatus.crashed], [0], true⟩ = true
      ∧ ¬ (⟨[1], [WStatus.crashed], [0], true⟩ : PoolState).executed.Perm [0, 1] := by
  refine ⟨rfl, ?_, by decide, ?_⟩
  · have h1 : PoolStep pfFirst ⟨[0, 1], [WStatus.idle], [], true⟩
        ⟨[1], [WStatus.busy 0], [], true⟩ :=
      PoolStep.take 0 0 [1] [WStatus.idle] [] true rfl
    have h2 : PoolStep pfFirst ⟨[1], [WStatus.busy 0], [], true⟩
        ⟨[1], [WStatus.crashed], [0], true⟩ :=
      PoolStep.exec 0 0 [1] [WStatus.busy 0] [] true rfl
    exact (Relation.ReflTransGen.refl.tail h1).tail h2
  · intro hperm
    have := hperm.length_eq
    simp at this

/-- C5 (amended): the worker loop has no panic isolation — a worker
running a panicking job unwinds and terminates (`crashed`), and a
crashed worker never takes another step: its receive loop does not
continue, so jobs left on the queue are picked up only if another
live worker exists. -/
theorem job_panic_crashes_worker (p : Nat → Bool) :
    (∀ (i j : Nat) (q : List Nat) (ws : List WStatus) (ex : List Nat) (c : Bool),
        ws[i]? = some (WStatus.busy j) → p j = true →
        PoolStep p ⟨q, ws, ex, c⟩ ⟨q, ws.set i WStatus.crashed, ex ++ [j], c⟩)
      ∧ (∀ (s s' : PoolState) (i : Nat), PoolStep p s s' →
          s.workers[i]? = some WStatus.crashed →
          s'.workers[i]? = some WStatus.crashed) := by
  constructor
  · intro i j q ws ex c h hp
    have hstep := @PoolStep.exec p i j q ws ex c h
    rw [hp] at hstep
    simpa using hstep
  · intro s s' i hstep hc
    cases hstep with
    | take i' j rest ws ex c h =>
      show (ws.set i' (WStatus.busy j))[i]? = some WStatus.crashed
      by_cases hii : i' = i
      · subst hii
        rw [h] at hc
        simp at hc
      · rw [List.getElem?_set_ne hii]
        exact hc
    | exec i' j q ws ex c h =>
      show (ws.set i' _)[i]? = some WStatus.crashed
      by_cases hii : i' = i
      · subst hii
        rw [h] at hc
        simp at hc
      · rw [List.getElem?_set_ne hii]
        exact hc
    | exit i' ws ex h =>
      show (ws.set i' WStatus.done)[i]? = some WStatus.crashed
      by_cases hii : i' = i
      · subst hii
        rw [h] at hc
        simp at hc
      · rw [List.getElem?_set_ne hii]
        exact hc

/-- Witness for C5's amended statement: worker `0` runs panicking job
`0` and crashes; a crashed worker stays crashed across another worker's
step. -/
theorem job_panic_crashes_worker_witness :
    PoolStep pfFirst ⟨[1], [WStatus.busy 0], [], true⟩
        ⟨[1], [WStatus.crashed], [0], true⟩
      ∧ (⟨[1], [WStatus.crashed, WStatus.idle], [0, 1], true⟩ : PoolState).workers[0]?
          = some WStatus.crashed := by
  constructor
  · exact (job_panic_crashes_worker pfFirst).1 0 0 [1] [WStatus.busy 0] [] true rfl rfl
  · exact (job_panic_crashes_worker pfFirst).2
      ⟨[1], [WStatus.crashed, WStatus.busy 1], [0], true⟩
      ⟨[1], [WStatus.crashed, WStatus.idle], [0, 1], true⟩ 0
      (PoolStep.exec 1 1 [1] [WStatus.crashed, WStatus.busy 1] [0] true rfl) rfl

/-- Counterexample for C5 as stated: with jobs `[0, 1]` where job `0`
panics, a single-worker pool reaches a state in which the worker thread
has crashed (so the panic did crash the worker), every thread has
terminated and been joined, and job `1` is still queued, never
executed. -/
theorem panic_not_isolated :
    ThreadPool.submitAll (ThreadPool.new 1) [0, 1]
        = Except.ok ⟨[0, 1], [WStatus.idle], [], false⟩
      ∧ PoolReach pfFirst
          (ThreadPool.beginDrop ⟨[0, 1], [WStatus.idle], [], false⟩)
          ⟨[1], [WStatus.crashed], [0], true⟩
      ∧ allJoined ⟨[1], [WStatus.crashed], [0], true⟩ = true
      ∧ (⟨[1], [WStatus.crashed], [0], true⟩ : PoolState).queue = [1]
      ∧ (⟨[1], [WStatus.crashed], [0], true⟩ : PoolState).executed = [0] := by
  refine ⟨rfl, ?_, by decide, rfl, rfl⟩
  have h1 : PoolStep pfFirst ⟨[0, 1], [WStatus.idle], [], true⟩
      ⟨[1], [WStatus.busy 0], [], true⟩ :=
    PoolStep.take 0 0 [1] [WStatus.idle] [] true rfl
  have h2 : PoolStep pfFirst ⟨[1], [WStatus.busy 0], [], true⟩
      ⟨[1], [WStatus.crashed], [0], true⟩ :=
    PoolStep.exec 0 0 [1] [WStatus.busy 0] [] true rfl
  exact (Relation.ReflTransGen.refl.tail h1).tail h2

end RustCourse
